import Mathlib

/-!
Verification development for the history data model of the safe-transaction-service
repository (safe_transaction_service/history/models.py).

The Django ORM layer is shallowly embedded: database tables become lists of records,
querysets become list filters and sorts, node (RPC) access becomes an explicit oracle
structure of deterministic lookup maps, and exceptions become Except / explicit error
constructors.  Machine integers of the chain (uint256 fields) are modelled as Nat,
signed database integer fields as Int, binary payloads as lists of bytes (Nat), and
database text ordering as byte-wise lexicographic ordering on the character data.
-/

/-- Lexicographic comparison of character lists by code point, the model of the
text ordering a database applies to stored varchar columns (byte order on ASCII). -/
def charListLt : List Char → List Char → Bool
  | [], [] => false
  | [], _ :: _ => true
  | _ :: _, [] => false
  | a :: as, b :: bs =>
    decide (a.toNat < b.toNat) || (a.toNat == b.toNat && charListLt as bs)

/-- Strict lexicographic text ordering on strings, used by the database for
order_by on CharField columns such as trace_address. -/
def strLtb (a b : String) : Bool := charListLt a.data b.data

/-- Strict ordering on the composite key (block number, transaction index,
trace_address string) used throughout the history models to order rows by the
joined columns ethereum_tx__block_id, ethereum_tx__transaction_index and
trace_address. -/
def keyLtb (a b : Nat × Nat × String) : Bool :=
  decide (a.1 < b.1) ||
    (a.1 == b.1 &&
      (decide (a.2.1 < b.2.1) || (a.2.1 == b.2.1 && strLtb a.2.2 b.2.2)))

/-- First-occurrence deduplication, the model of OrderedDict.fromkeys in
EthereumTxManager.create_or_update_from_tx_hashes. -/
def pyDedup (hashes : List String) : List String :=
  hashes.foldl (fun acc h => if h ∈ acc then acc else acc ++ [h]) []

/-- InternalTxManager._trace_address_to_str: joins the integer components of a raw
trace address with commas, producing the string stored in the trace_address column. -/
def trace_address_to_str (trace_address : List Nat) : String :=
  String.intercalate "," (trace_address.map toString)

/-- Componentwise numeric (lexicographic) order on raw trace-address paths: the
call-tree traversal order of the execution trace. -/
def traceListLtb : List Nat → List Nat → Bool
  | [], [] => false
  | [], _ :: _ => true
  | _ :: _, [] => false
  | a :: as, b :: bs => decide (a < b) || (a == b && traceListLtb as bs)

/-- Reflexive closure of the stored-string trace ordering, the order_by relation
on the trace_address column. -/
def storedTraceLe (a b : String) : Prop := strLtb b a = false

instance : DecidableRel storedTraceLe := fun a b => by
  unfold storedTraceLe; infer_instance

/- ## Block / transaction store (EthereumBlock, EthereumTx) -/

/-- A receipt log entry, kept abstract: the claims only require that stored logs are
the image of the logs of the receipt. -/
abbrev ReceiptLog := String

/-- Modelled from the spec: clean_receipt_log lives in history/utils.py, which is not
part of the provided source; the spec only calls the stored value a decoded-ready log
list.  Its internal behaviour is irrelevant to every claim, so it is modelled as the
identity on the abstract log representation. -/
def clean_receipt_log (log : ReceiptLog) : ReceiptLog := log

/-- Row of the EthereumBlock table. -/
structure EthereumBlock where
  number : Nat
  gas_limit : Nat
  gas_used : Nat
  timestamp : Nat
  block_hash : String
  parent_hash : String
  confirmed : Bool
deriving DecidableEq

/-- Row of the EthereumTx table.  block is the FK to EthereumBlock by number, null
until the transaction is mined; gas_used, status, logs and transaction_index are
likewise null until mined. -/
structure EthereumTx where
  block : Option Nat
  tx_hash : String
  gas_used : Option Nat
  status : Option Int
  logs : Option (List ReceiptLog)
  transaction_index : Option Nat
  _from : Option String
  gas : Nat
  gas_price : Nat
  data : Option (List Nat)
  nonce : Nat
  to_ : Option String
  value : Nat
deriving DecidableEq

/-- EthereumTx.success: status == 1 once a status is known, null before. -/
def EthereumTx.success (tx : EthereumTx) : Option Bool :=
  match tx.status with
  | some s => some (decide (s = 1))
  | none => none

/-- A transaction receipt as returned by the node client. -/
structure TxReceipt where
  gasUsed : Nat
  logs : List ReceiptLog
  status : Option Int
  transactionIndex : Nat
  blockNumber : Option Nat
deriving DecidableEq

/-- A transaction dict as returned by the node client (data already merged from the
data / input keys as create_from_tx_dict does). -/
structure ClientTx where
  hash : String
  _from : String
  gas : Nat
  gasPrice : Nat
  data : Option (List Nat)
  nonce : Nat
  to_ : Option String
  value : Nat
  blockNumber : Option Nat
deriving DecidableEq

/-- A block dict as returned by the node client. -/
structure ClientBlock where
  number : Nat
  gasLimit : Nat
  gasUsed : Nat
  timestamp : Nat
  hash : String
  parentHash : String
deriving DecidableEq

/-- The node boundary (EthereumClientProvider), modelled as deterministic lookup
maps: the batch calls get_transaction_receipts / get_transactions and the singular
retries get_transaction_receipt / get_transaction read the same map, so a miss is a
miss that persists through the singular retry. -/
structure EthereumClient where
  receipts : String → Option TxReceipt
  transactions : String → Option ClientTx
  blocks : Nat → ClientBlock
  current_block_number : Nat

/-- The block and transaction tables. -/
structure TxDB where
  blocks : List EthereumBlock
  txs : List EthereumTx
deriving DecidableEq

/-- EthereumBlockManager.get_or_create_from_block (with create_from_block inlined):
returns the stored block for that number, or creates one, computing confirmed as
current_block_number - number >= 6 when a current head is given. -/
def get_or_create_from_block (db : TxDB) (b : ClientBlock)
    (current_block_number : Option Nat) : TxDB × EthereumBlock :=
  match db.blocks.find? (fun x => x.number == b.number) with
  | some blk => (db, blk)
  | none =>
    let confirmed :=
      match current_block_number with
      | some c => decide ((c : Int) - (b.number : Int) ≥ 6)
      | none => false
    let blk : EthereumBlock :=
      { number := b.number, gas_limit := b.gasLimit, gas_used := b.gasUsed,
        timestamp := b.timestamp, block_hash := b.hash, parent_hash := b.parentHash,
        confirmed := confirmed }
    ({ db with blocks := db.blocks ++ [blk] }, blk)

/-- EthereumTxManager.__update_with_receipt_and_block: when the stored transaction has
no block yet, link it to the block and fill gas_used, logs, status and
transaction_index from the receipt; otherwise return it untouched. -/
def update_with_receipt_and_block (tx : EthereumTx) (block_number : Nat)
    (tx_receipt : TxReceipt) : EthereumTx :=
  match tx.block with
  | some _ => tx
  | none =>
    { tx with
      block := some block_number,
      gas_used := some tx_receipt.gasUsed,
      logs := some (tx_receipt.logs.map clean_receipt_log),
      status := tx_receipt.status,
      transaction_index := some tx_receipt.transactionIndex }

/-- EthereumTxManager.create_from_tx_dict. -/
def create_from_tx_dict (tx : ClientTx) (tx_receipt : Option TxReceipt)
    (ethereum_block : Option Nat) : EthereumTx :=
  { block := ethereum_block,
    tx_hash := tx.hash,
    gas_used := tx_receipt.map (fun r => r.gasUsed),
    logs := tx_receipt.map (fun r => r.logs.map clean_receipt_log),
    status := tx_receipt.bind (fun r => r.status),
    transaction_index := tx_receipt.map (fun r => r.transactionIndex),
    _from := some tx._from,
    gas := tx.gas,
    gas_price := tx.gasPrice,
    data := tx.data,
    nonce := tx.nonce,
    to_ := tx.to_,
    value := tx.value }

/-- One assignment ethereum_txs_dict[tx.tx_hash] = tx on the ordered dict (all keys
are already present, as canonical hashes). -/
def dictSet (d : List (String × Option EthereumTx)) (tx : EthereumTx) :
    List (String × Option EthereumTx) :=
  d.map (fun p => if p.1 == tx.tx_hash then (p.1, some tx) else p)

/-- OrderedDict.fromkeys over the (canonical) requested hashes. -/
def initialDict (tx_hashes : List String) : List (String × Option EthereumTx) :=
  (pyDedup tx_hashes).map (fun h => (h, none))

/-- The dict after filling in the database hits: stored transactions among the
requested hashes that already have a block. -/
def dbDict (db : TxDB) (tx_hashes : List String) : List (String × Option EthereumTx) :=
  (db.txs.filter (fun t => tx_hashes.contains t.tx_hash && t.block.isSome)).foldl
    dictSet (initialDict tx_hashes)

/-- tx_hashes_not_in_db: the requested hashes still unresolved after the database
lookup. -/
def missingHashes (db : TxDB) (tx_hashes : List String) : List String :=
  ((dbDict db tx_hashes).filter (fun p => p.2.isNone)).map Prod.fst

/-- The two batch-failure exceptions of the transaction manager. -/
inductive TxError where
  | notFound (tx_hash : String)
  | withoutBlock (tx_hash : String)
deriving DecidableEq

/-- The receipt-validation loop of create_or_update_from_tx_hashes: raises notFound
for a hash whose receipt is missing (also after the singular retry) and withoutBlock
for a receipt without blockNumber; otherwise collects the receipts. -/
def validateReceipts (client : EthereumClient) : List String → Except TxError (List TxReceipt)
  | [] => .ok []
  | h :: rest =>
    match client.receipts h with
    | none => .error (.notFound h)
    | some r =>
      match r.blockNumber with
      | none => .error (.withoutBlock h)
      | some _ =>
        match validateReceipts client rest with
        | .error e => .error e
        | .ok rs => .ok (r :: rs)

/-- The transaction-validation loop of create_or_update_from_tx_hashes: raises
notFound for a hash whose transaction is missing, withoutBlock for a transaction
without blockNumber; otherwise collects the transactions and their block numbers. -/
def validateTxs (client : EthereumClient) : List String → Except TxError (List ClientTx × List Nat)
  | [] => .ok ([], [])
  | h :: rest =>
    match client.transactions h with
    | none => .error (.notFound h)
    | some t =>
      match t.blockNumber with
      | none => .error (.withoutBlock h)
      | some bn =>
        match validateTxs client rest with
        | .error e => .error e
        | .ok (ts, bns) => .ok (t :: ts, bn :: bns)

/-- Pointwise zip of three lists, the model of Python zip over three sequences. -/
def zip3 : List α → List β → List γ → List (α × β × γ)
  | a :: as, b :: bs, c :: cs => (a, b, c) :: zip3 as bs cs
  | _, _, _ => []

/-- One iteration of the final loop of create_or_update_from_tx_hashes: get or create
the block, then update the pre-existing transaction row in place (for txs stored
before being mined) or create a new row, and record it in the dict. -/
def ingestOne (db : TxDB) (current_block_number : Nat) (t : ClientTx) (r : TxReceipt)
    (b : ClientBlock) (dict : List (String × Option EthereumTx)) :
    TxDB × List (String × Option EthereumTx) :=
  let created := get_or_create_from_block db b (some current_block_number)
  let db1 := created.1
  let blk := created.2
  match db1.txs.find? (fun x => x.tx_hash == t.hash) with
  | some etx =>
    let etx2 := update_with_receipt_and_block etx blk.number r
    ({ db1 with txs := db1.txs.map (fun x => if x.tx_hash == t.hash then etx2 else x) },
      dictSet dict etx2)
  | none =>
    let etx := create_from_tx_dict t (some r) (some blk.number)
    ({ db1 with txs := db1.txs ++ [etx] }, dictSet dict etx)

/-- EthereumTxManager.create_or_update_from_tx_hashes.  Returns the database after the
call together with either the dict values (stored transactions in request order) or
the exception raised.  All raises happen in the validation loops, before any row is
written, so an error leaves the database untouched. -/
def create_or_update_from_tx_hashes (db : TxDB) (tx_hashes : List String)
    (client : EthereumClient) : TxDB × Except TxError (List (Option EthereumTx)) :=
  let dict1 := dbDict db tx_hashes
  let missing := missingHashes db tx_hashes
  if missing.isEmpty then
    (db, .ok (dict1.map Prod.snd))
  else
    match validateReceipts client missing with
    | .error e => (db, .error e)
    | .ok tx_receipts =>
      match validateTxs client missing with
      | .error e => (db, .error e)
      | .ok txsAndBlockNumbers =>
        let blocks := txsAndBlockNumbers.2.map client.blocks
        let final :=
          (zip3 txsAndBlockNumbers.1 tx_receipts blocks).foldl
            (fun acc trb => ingestOne acc.1 client.current_block_number trb.1 trb.2.1 trb.2.2 acc.2)
            (db, dict1)
        (final.1, .ok (final.2.map Prod.snd))

/- ## Internal transactions (InternalTx, InternalTxDecoded) -/

/-- EthereumTxCallType values as stored in the call_type column. -/
def EthereumTxCallType.CALL : Nat := 0

/-- EthereumTxCallType.DELEGATE_CALL as stored in the call_type column. -/
def EthereumTxCallType.DELEGATE_CALL : Nat := 1

/-- Row of the InternalTx table; ethereum_tx is the FK to EthereumTx by hash, and
(ethereum_tx, trace_address) is unique. -/
structure InternalTx where
  ethereum_tx : String
  trace_address : String
  _from : Option String
  gas : Nat
  data : Option (List Nat)
  to_ : Option String
  value : Nat
  gas_used : Nat
  contract_address : Option String
  tx_type : Nat
  call_type : Option Nat
  error : Option String
deriving DecidableEq

/-- Row of the InternalTxDecoded table; internal_tx is the one-to-one key
(ethereum_tx hash, trace_address). -/
structure InternalTxDecoded where
  internal_tx : String × String
  function_name : String
  arguments : List (String × String)
  processed : Bool
deriving DecidableEq

/-- The tables an internal-transaction queryset joins against. -/
structure HistoryDB where
  txs : List EthereumTx
  internal_txs : List InternalTx
  decoded : List InternalTxDecoded
deriving DecidableEq

/-- Lookup of the owning EthereumTx row of an internal transaction. -/
def HistoryDB.txOf (db : HistoryDB) (tx_hash : String) : Option EthereumTx :=
  db.txs.find? (fun t => t.tx_hash == tx_hash)

/-- Lookup of the InternalTxDecoded row of an internal transaction (the reverse
one-to-one decoded_tx accessor). -/
def HistoryDB.decodedOf (db : HistoryDB) (it : InternalTx) : Option InternalTxDecoded :=
  db.decoded.find? (fun d => d.internal_tx == (it.ethereum_tx, it.trace_address))

/-- InternalTx.is_delegate_call. -/
def InternalTx.is_delegate_call (it : InternalTx) : Bool :=
  match it.call_type with
  | none => false
  | some c => c == EthereumTxCallType.DELEGATE_CALL

/-- Python truthiness of a nullable string column (null and the empty string are
falsy). -/
def pyTruthyStr : Option String → Bool
  | none => false
  | some s => !(s == "")

/-- Python truthiness of a nullable binary column (null and the empty payload are
falsy). -/
def pyTruthyBytes : Option (List Nat) → Bool
  | none => false
  | some l => !(l == [])

/-- Python truthiness of an optional boolean (None is falsy). -/
def pyTruthyOptBool : Option Bool → Bool
  | none => false
  | some b => b

/-- InternalTx.can_be_decoded (the instance property): delegate call, no error, a
truthy payload and a successful owning transaction.  The owning transaction row is
passed explicitly (the FK access self.ethereum_tx). -/
def InternalTx.can_be_decoded (it : InternalTx) (owning_tx : EthereumTx) : Bool :=
  it.is_delegate_call && !(pyTruthyStr it.error) && pyTruthyBytes it.data &&
    pyTruthyOptBool owning_tx.success

/-- The join condition ethereum_tx__status=1 of the can_be_decoded queryset. -/
def owningTxStatusIsOne (db : HistoryDB) (it : InternalTx) : Bool :=
  match db.txOf it.ethereum_tx with
  | some e => e.status == some 1
  | none => false

/-- InternalTxQuerySet.can_be_decoded: delegate calls without error whose owning
transaction has status 1, that have no decoded row yet, excluding null data. -/
def InternalTxQuerySet.can_be_decoded (db : HistoryDB) : List InternalTx :=
  db.internal_txs.filter (fun it =>
    it.call_type == some EthereumTxCallType.DELEGATE_CALL &&
    it.error == none &&
    owningTxStatusIsOne db it &&
    (db.decodedOf it).isNone &&
    !(it.data == none))

/-- The order_by trace_address relation on internal transactions of one
transaction. -/
def traceLe (a b : InternalTx) : Prop := strLtb b.trace_address a.trace_address = false

instance : DecidableRel traceLe := fun a b => by
  unfold traceLe; infer_instance

/-- Outcome of a Python indexing operation on a Django queryset: a value, a caught
IndexError, unsupported negative indexing (not an IndexError), or a ValueError. -/
inductive PyLookup (α : Type) where
  | ok (a : α)
  | indexError
  | negIndexUnsupported
  | valueError
deriving DecidableEq

/-- Indexing a fully evaluated queryset with a Python int: Django refuses negative
indices (with an error that is not an IndexError), an index past the end raises
IndexError. -/
def qsGet (l : List InternalTx) (i : Int) : PyLookup InternalTx :=
  if i < 0 then .negIndexUnsupported
  else
    match l.get? i.toNat with
    | some x => .ok x
    | none => .indexError

/-- InternalTx.get_next_trace: sort the internal transactions of the same
transaction by trace_address, locate self and return the entry one past it, with
IndexError (and only IndexError) mapped to None. -/
def get_next_trace (db : List InternalTx) (self : InternalTx) : PyLookup (Option InternalTx) :=
  let internal_txs := List.insertionSort traceLe
    (db.filter (fun it => it.ethereum_tx == self.ethereum_tx))
  let traces := internal_txs.map (fun it => it.trace_address)
  match traces.findIdx? (fun s => s == self.trace_address) with
  | none => .valueError
  | some index =>
    match qsGet internal_txs ((index : Int) + 1) with
    | .ok t => .ok (some t)
    | .indexError => .ok none
    | .negIndexUnsupported => .negIndexUnsupported
    | .valueError => .valueError

/-- InternalTx.get_previous_trace: as get_next_trace but with the entry one before
self, again mapping only IndexError to None. -/
def get_previous_trace (db : List InternalTx) (self : InternalTx) : PyLookup (Option InternalTx) :=
  let internal_txs := List.insertionSort traceLe
    (db.filter (fun it => it.ethereum_tx == self.ethereum_tx))
  let traces := internal_txs.map (fun it => it.trace_address)
  match traces.findIdx? (fun s => s == self.trace_address) with
  | none => .valueError
  | some index =>
    match qsGet internal_txs ((index : Int) - 1) with
    | .ok t => .ok (some t)
    | .indexError => .ok none
    | .negIndexUnsupported => .negIndexUnsupported
    | .valueError => .valueError

/- ## Pending decoded operations (InternalTxDecodedQuerySet.pending_for_safes) -/

/-- Row of the InternalTxDecoded table flattened with the joined columns the
pending_for_safes queryset reads: internal_tx___from, and the ordering columns
internal_tx__ethereum_tx__block_id, internal_tx__ethereum_tx__transaction_index and
internal_tx__trace_address (rows of this queryset come from mined transactions, so
the block id is present). -/
structure InternalTxDecodedRow where
  internal_tx_from : Option String
  function_name : String
  processed : Bool
  block_id : Nat
  transaction_index : Nat
  trace_address : String
deriving DecidableEq

/-- The composite ordering key of a pending decoded operation. -/
def internalTxOrderKey (r : InternalTxDecodedRow) : Nat × Nat × String :=
  (r.block_id, r.transaction_index, r.trace_address)

/-- The order_by relation of pending_for_safes: block id, then transaction index,
then trace_address, ascending. -/
def decodedLe (a b : InternalTxDecodedRow) : Prop :=
  keyLtb (internalTxOrderKey b) (internalTxOrderKey a) = false

instance : DecidableRel decodedLe := fun a b => by
  unfold decodedLe; infer_instance

/-- The membership condition of pending_for_safes: internal_tx___from in the safe
contract addresses (a null from address matches nothing), or function_name setup. -/
def pendingMatches (r : InternalTxDecodedRow) (safe_addresses : List String) : Bool :=
  (match r.internal_tx_from with
   | some a => safe_addresses.contains a
   | none => false) || r.function_name == "setup"

/-- InternalTxDecodedQuerySet.pending_for_safes: the not yet processed decoded
internal transactions whose internal transaction comes from an indexed Safe or is a
setup call, ordered by block id, transaction index and trace_address. -/
def pending_for_safes (rows : List InternalTxDecodedRow) (safe_addresses : List String) :
    List InternalTxDecodedRow :=
  List.insertionSort decodedLe
    (rows.filter (fun r => !r.processed && pendingMatches r safe_addresses))

/- ## Safe status snapshots (SafeStatusQuerySet) -/

/-- Row of the SafeStatus table flattened with the joined ordering columns
internal_tx__ethereum_tx__block_id and internal_tx__ethereum_tx__transaction_index
(snapshots are produced from mined transactions, so the block id is present); the
one-to-one internal_tx key makes (block_id, transaction_index, trace_address) the
identity of the producing internal transaction. -/
structure SafeStatusRow where
  address : String
  block_id : Nat
  transaction_index : Nat
  trace_address : String
  owners : List String
  threshold : Nat
  nonce : Nat
  master_copy : String
deriving DecidableEq

/-- The composite ordering key of a Safe status snapshot. -/
def statusKey (s : SafeStatusRow) : Nat × Nat × String :=
  (s.block_id, s.transaction_index, s.trace_address)

/-- The row a DISTINCT ON address query returns for one address under the
sorted_by_internal_tx order (address, then key descending): the row with the
maximal key among the rows of that address (the first row of the sorted group). -/
def maxByKey : List SafeStatusRow → Option SafeStatusRow
  | [] => none
  | r :: rest =>
    match maxByKey rest with
    | none => some r
    | some m => if keyLtb (statusKey r) (statusKey m) then some m else some r

/-- SafeStatusQuerySet.last_for_every_address: one row per address, the snapshot
with the maximal (block id, transaction index, trace_address) key. -/
def last_for_every_address (rows : List SafeStatusRow) : List SafeStatusRow :=
  ((rows.map (fun r => r.address)).dedup).filterMap
    (fun a => maxByKey (rows.filter (fun r => r.address == a)))

/-- SafeStatusQuerySet.last_for_address: the last_for_every_address row of the given
address, if any. -/
def last_for_address (rows : List SafeStatusRow) (address : String) : Option SafeStatusRow :=
  ((last_for_every_address rows).filter (fun r => r.address == address)).head?

/- ## Monitored address scan cursors (MonitoredAddressManager.update_addresses) -/

/-- Row of a monitored-address table: the primary key address and the nullable
integer cursor columns addressed by name (for example tx_block_number or
erc20_block_number). -/
structure MonitoredAddressRow where
  address : String
  cursors : List (String × Option Int)
deriving DecidableEq

/-- Read a named cursor column of a row (none both for a null cursor and for a
column the row does not carry). -/
def getCursor (r : MonitoredAddressRow) (database_field : String) : Option Int :=
  match r.cursors.find? (fun p => p.1 == database_field) with
  | some p => p.2
  | none => none

/-- Set a named cursor column of a row. -/
def setCursor (r : MonitoredAddressRow) (database_field : String) (value : Int) :
    MonitoredAddressRow :=
  { r with cursors := r.cursors.map (fun p =>
      if p.1 == database_field then (p.1, some value) else p) }

/-- The filter of update_addresses: address in the given list and the named cursor
column at least from_block_number - 1 (a null cursor never satisfies the
comparison). -/
def cursorMatches (r : MonitoredAddressRow) (addresses : List String)
    (from_block_number : Int) (database_field : String) : Bool :=
  addresses.contains r.address &&
    (match getCursor r database_field with
     | some c => decide (from_block_number - 1 ≤ c)
     | none => false)

/-- MonitoredAddressManager.update_addresses: set the named cursor column to
block_number on every row whose address is in the list and whose cursor is at least
from_block_number - 1; returns the updated table and the number of rows updated. -/
def update_addresses (rows : List MonitoredAddressRow) (addresses : List String)
    (from_block_number : Int) (block_number : Int) (database_field : String) :
    List MonitoredAddressRow × Nat :=
  ((rows.map (fun r =>
      if cursorMatches r addresses from_block_number database_field then
        setCursor r database_field block_number
      else r)),
   (rows.filter (fun r => cursorMatches r addresses from_block_number database_field)).length)

/- ## ERC20 / ERC721 transfer events (EthereumEvent) -/

/-- A JSON argument value of a decoded event: an address-like string or a number. -/
inductive JsonVal where
  | str (s : String)
  | num (n : Int)
deriving DecidableEq

/-- The decoded arguments of an event, a JSON object. -/
abbrev EventArgs := List (String × JsonVal)

/-- Lookup of a key of the arguments object. -/
def argLookup (args : EventArgs) (k : String) : Option JsonVal :=
  (args.find? (fun p => p.1 == k)).map Prod.snd

/-- The arguments__has_key lookup. -/
def hasArgKey (args : EventArgs) (k : String) : Bool := (argLookup args k).isSome

/-- ERC20_721_TRANSFER_TOPIC: the Transfer(address,address,uint256) topic. -/
def ERC20_721_TRANSFER_TOPIC : String :=
  "0xddf252ad1be2c89b69c2b068fc378daa952ba7f163c4a11628f55a4df523b3ef"

/-- Row of the EthereumEvent table. -/
structure EthereumEvent where
  ethereum_tx : String
  log_index : Nat
  address : String
  topic : String
  topics : List String
  arguments : EventArgs
deriving DecidableEq

/-- EthereumEventQuerySet.erc20_and_721_events: events with the transfer topic,
optionally restricted to a token address and to events whose to or from argument is
the given address. -/
def erc20_and_721_events (events : List EthereumEvent) (token_address : Option String)
    (address : Option String) : List EthereumEvent :=
  let q1 := events.filter (fun e => e.topic == ERC20_721_TRANSFER_TOPIC)
  let q2 :=
    match token_address with
    | some t => q1.filter (fun e => e.address == t)
    | none => q1
  match address with
  | some a => q2.filter (fun e =>
      argLookup e.arguments "to" == some (.str a) ||
      argLookup e.arguments "from" == some (.str a))
  | none => q2

/-- EthereumEventQuerySet.erc20_events: the transfer events that carry a value
argument. -/
def erc20_events (events : List EthereumEvent) (token_address : Option String)
    (address : Option String) : List EthereumEvent :=
  (erc20_and_721_events events token_address address).filter
    (fun e => hasArgKey e.arguments "value")

/-- The numeric cast applied by the balance query to the value argument (the RawSQL
cast to numeric); events of the balance query carry numeric values, other shapes
(which the database cast would reject) default to zero. -/
def jsonNumeric : Option JsonVal → Int
  | some (.num n) => n
  | _ => 0

/-- The signed value one event contributes to the balance of the queried address:
negated when the from argument is that address (the When clause), the plain value
otherwise. -/
def signedValue (address : String) (e : EthereumEvent) : Int :=
  if argLookup e.arguments "from" == some (.str address) then
    -(jsonNumeric (argLookup e.arguments "value"))
  else
    jsonNumeric (argLookup e.arguments "value")

/-- The order_by -balance relation of the balance query. -/
def balanceDesc (a b : String × Int) : Prop := b.2 ≤ a.2

instance : DecidableRel balanceDesc := fun a b => by
  unfold balanceDesc; infer_instance

/-- EthereumEventManager.erc20_tokens_with_balance: group the erc20 transfer events
involving the address by token contract address, sum the signed values, and order by
descending balance. -/
def erc20_tokens_with_balance (events : List EthereumEvent) (address : String) :
    List (String × Int) :=
  let evs := erc20_events events none (some address)
  let tokens := (evs.map (fun e => e.address)).dedup
  List.insertionSort balanceDesc
    (tokens.map (fun t =>
      (t, ((evs.filter (fun e => e.address == t)).map (signedValue address)).sum)))

/-- The exceptions get_or_create_erc20_or_721_event can raise: the explicit
ValueError of the validation, and the IndexError of topics[0] on an event without
topics. -/
inductive EventStoreError where
  | valueError (msg : String)
  | indexError
deriving DecidableEq

/-- A decoded event dict as handed to get_or_create_erc20_or_721_event. -/
structure DecodedEventDict where
  transactionHash : String
  logIndex : Nat
  address : String
  topics : List String
  args : EventArgs
deriving DecidableEq

/-- EthereumEventManager.get_or_create_erc20_or_721_event: raises ValueError unless
the arguments carry both the value and the tokenId key, then gets or creates the
event row keyed by (transaction hash, log index); the returned flag tells whether a
row was created. -/
def get_or_create_erc20_or_721_event (events : List EthereumEvent)
    (decoded_event : DecodedEventDict) :
    Except EventStoreError (List EthereumEvent × EthereumEvent × Bool) :=
  if !(hasArgKey decoded_event.args "value") || !(hasArgKey decoded_event.args "tokenId") then
    .error (.valueError "Invalid ERC20 or ERC721 event")
  else
    match events.find? (fun e =>
        e.ethereum_tx == decoded_event.transactionHash &&
        e.log_index == decoded_event.logIndex) with
    | some e => .ok (events, e, false)
    | none =>
      match decoded_event.topics with
      | [] => .error .indexError
      | t0 :: _ =>
        let e : EthereumEvent :=
          { ethereum_tx := decoded_event.transactionHash,
            log_index := decoded_event.logIndex,
            address := decoded_event.address,
            topic := t0,
            topics := decoded_event.topics,
            arguments := decoded_event.args }
        .ok (events ++ [e], e, true)

/- ## Concrete example rows (inputs of witnesses and concrete evaluations) -/

/-- Example snapshot of one Safe at block 1. -/
def c1Early : SafeStatusRow :=
  { address := "0xsafe", block_id := 1, transaction_index := 0, trace_address := "0",
    owners := ["0xa"], threshold := 1, nonce := 0, master_copy := "0xmc" }

/-- Example snapshot of the same Safe at block 2 (the current one). -/
def c1Late : SafeStatusRow := { c1Early with block_id := 2, nonce := 1 }

/-- Example late-arriving snapshot of the same Safe at block 0. -/
def c1Stale : SafeStatusRow := { c1Early with block_id := 0 }

/-- Example SafeStatus table. -/
def c1Rows : List SafeStatusRow := [c1Early, c1Late]

/-- Example mined, successful owning transaction. -/
def c2OwningTx : EthereumTx :=
  { block := some 5, tx_hash := "0xtx", gas_used := some 21000, status := some 1,
    logs := some [], transaction_index := some 0, _from := some "0xsender",
    gas := 100000, gas_price := 1, data := some [1], nonce := 0,
    to_ := some "0xsafe", value := 0 }

/-- Example delegate-call internal transaction with a payload and no error. -/
def c2Itx : InternalTx :=
  { ethereum_tx := "0xtx", trace_address := "0", _from := some "0xsafe", gas := 50000,
    data := some [106, 102, 7], to_ := some "0xmaster", value := 0, gas_used := 100,
    contract_address := none, tx_type := 0, call_type := some 1, error := none }

/-- Example history database for the decoding-eligibility claim. -/
def c2Db : HistoryDB := { txs := [c2OwningTx], internal_txs := [c2Itx], decoded := [] }

/-- Example internal transaction at the root trace address of its transaction. -/
def c5TraceA : InternalTx :=
  { ethereum_tx := "0xaaa", trace_address := "0", _from := some "0x1", gas := 0,
    data := none, to_ := some "0x2", value := 1, gas_used := 0,
    contract_address := none, tx_type := 0, call_type := some 0, error := none }

/-- Example internal transaction one level below c5TraceA in the call tree. -/
def c5TraceB : InternalTx := { c5TraceA with trace_address := "0,0" }

/-- Example InternalTx table holding one transaction with two traces. -/
def c5Db : List InternalTx := [c5TraceB, c5TraceA]

/-- Example receipt of a mined transaction. -/
def c7Receipt : TxReceipt :=
  { gasUsed := 21000, logs := ["log0"], status := some 1, transactionIndex := 3,
    blockNumber := some 9 }

/-- Example node transaction dict of the same transaction. -/
def c7ClientTx : ClientTx :=
  { hash := "0xabc", _from := "0xsender", gas := 90000, gasPrice := 2, data := some [0],
    nonce := 7, to_ := some "0xdest", value := 55, blockNumber := some 9 }

/-- Example node block dict. -/
def c7Block : ClientBlock :=
  { number := 9, gasLimit := 1000, gasUsed := 500, timestamp := 1234,
    hash := "0xblock9", parentHash := "0xblock8" }

/-- Example stored placeholder: the same transaction known but unmined. -/
def c7Placeholder : EthereumTx :=
  { block := none, tx_hash := "0xabc", gas_used := none, status := none, logs := none,
    transaction_index := none, _from := some "0xsender", gas := 90000, gas_price := 2,
    data := some [0], nonce := 7, to_ := some "0xdest", value := 55 }

/-- Example transaction store holding only the placeholder. -/
def c7Db : TxDB := { blocks := [], txs := [c7Placeholder] }

/-- Example node client that knows the example transaction. -/
def c7Client : EthereumClient :=
  { receipts := fun h => if h == "0xabc" then some c7Receipt else none,
    transactions := fun h => if h == "0xabc" then some c7ClientTx else none,
    blocks := fun n => { c7Block with number := n },
    current_block_number := 20 }

/- ## Theorems.  First the order-theoretic facts about the composite keys. -/

theorem char_eq_of_toNat_eq {a b : Char} (h : a.toNat = b.toNat) : a = b :=
  Char.ext (UInt32.ext h)

theorem charListLt_irrefl : ∀ l : List Char, charListLt l l = false := by
  intro l
  induction l with
  | nil => rfl
  | cons a as ih => simp [charListLt, ih]

theorem charListLt_trans :
    ∀ (a b c : List Char), charListLt a b = true → charListLt b c = true →
      charListLt a c = true := by
  intro a
  induction a with
  | nil =>
    intro b c hab hbc
    cases b with
    | nil => simp [charListLt] at hab
    | cons y ys =>
      cases c with
      | nil => simp [charListLt] at hbc
      | cons z zs => simp [charListLt]
  | cons x xs ih =>
    intro b c hab hbc
    cases b with
    | nil => simp [charListLt] at hab
    | cons y ys =>
      cases c with
      | nil => simp [charListLt] at hbc
      | cons z zs =>
        simp only [charListLt, Bool.or_eq_true, Bool.and_eq_true, decide_eq_true_eq,
          beq_iff_eq] at hab hbc ⊢
        rcases hab with h1 | ⟨he1, h1⟩ <;> rcases hbc with h2 | ⟨he2, h2⟩
        · exact Or.inl (Nat.lt_trans h1 h2)
        · exact Or.inl (he2 ▸ h1)
        · exact Or.inl (he1 ▸ h2)
        · exact Or.inr ⟨he1.trans he2, ih ys zs h1 h2⟩

theorem charListLt_eq_of_not :
    ∀ (a b : List Char), charListLt a b = false → charListLt b a = false → a = b := by
  intro a
  induction a with
  | nil =>
    intro b hab _
    cases b with
    | nil => rfl
    | cons y ys => simp [charListLt] at hab
  | cons x xs ih =>
    intro b hab hba
    cases b with
    | nil => simp [charListLt] at hba
    | cons y ys =>
      simp only [charListLt, Bool.or_eq_false_iff, Bool.and_eq_false_iff,
        decide_eq_false_iff_not, beq_eq_false_iff_ne, ne_eq] at hab hba
      have hxy : x.toNat = y.toNat := by
        rcases hab with ⟨h1, _⟩
        rcases hba with ⟨h2, _⟩
        omega
      have hx : x = y := char_eq_of_toNat_eq hxy
      have htl : charListLt xs ys = false := by
        rcases hab.2 with h | h
        · exact absurd hxy h
        · exact h
      have htl2 : charListLt ys xs = false := by
        rcases hba.2 with h | h
        · exact absurd hxy.symm h
        · exact h
      rw [hx, ih ys htl htl2]

theorem strLtb_irrefl (s : String) : strLtb s s = false := charListLt_irrefl _

theorem strLtb_trans {a b c : String} (h1 : strLtb a b = true) (h2 : strLtb b c = true) :
    strLtb a c = true := charListLt_trans _ _ _ h1 h2

theorem strLtb_eq_of_not {a b : String} (h1 : strLtb a b = false)
    (h2 : strLtb b a = false) : a = b :=
  String.ext (charListLt_eq_of_not _ _ h1 h2)

theorem keyLtb_irrefl (k : Nat × Nat × String) : keyLtb k k = false := by
  simp [keyLtb, strLtb_irrefl]

theorem keyLtb_trans {a b c : Nat × Nat × String} (h1 : keyLtb a b = true)
    (h2 : keyLtb b c = true) : keyLtb a c = true := by
  simp only [keyLtb, Bool.or_eq_true, Bool.and_eq_true, decide_eq_true_eq,
    beq_iff_eq] at h1 h2 ⊢
  rcases h1 with h1 | ⟨he1, h1⟩ <;> rcases h2 with h2 | ⟨he2, h2⟩
  · exact Or.inl (Nat.lt_trans h1 h2)
  · exact Or.inl (he2 ▸ h1)
  · exact Or.inl (he1 ▸ h2)
  · refine Or.inr ⟨he1.trans he2, ?_⟩
    rcases h1 with h1 | ⟨hf1, h1⟩ <;> rcases h2 with h2 | ⟨hf2, h2⟩
    · exact Or.inl (Nat.lt_trans h1 h2)
    · exact Or.inl (hf2 ▸ h1)
    · exact Or.inl (hf1 ▸ h2)
    · exact Or.inr ⟨hf1.trans hf2, strLtb_trans h1 h2⟩

theorem keyLtb_eq_of_not {a b : Nat × Nat × String} (h1 : keyLtb a b = false)
    (h2 : keyLtb b a = false) : a = b := by
  simp only [keyLtb, Bool.or_eq_false_iff, Bool.and_eq_false_iff,
    decide_eq_false_iff_not, beq_eq_false_iff_ne, ne_eq, Nat.not_lt] at h1 h2
  obtain ⟨hb1, hrest1⟩ := h1
  obtain ⟨hb2, hrest2⟩ := h2
  have hfst : a.1 = b.1 := Nat.le_antisymm hb2 hb1
  have hr1 := hrest1.resolve_left (by simp [hfst])
  have hr2 := hrest2.resolve_left (by simp [hfst])
  simp only [Bool.or_eq_false_iff, Bool.and_eq_false_iff, decide_eq_false_iff_not,
    beq_eq_false_iff_ne, ne_eq, Nat.not_lt] at hr1 hr2
  obtain ⟨ht1, hs1⟩ := hr1
  obtain ⟨ht2, hs2⟩ := hr2
  have hsnd : a.2.1 = b.2.1 := Nat.le_antisymm ht2 ht1
  have hstr1 := hs1.resolve_left (by simp [hsnd])
  have hstr2 := hs2.resolve_left (by simp [hsnd])
  have hthd : a.2.2 = b.2.2 := strLtb_eq_of_not hstr1 hstr2
  obtain ⟨a1, a2, a3⟩ := a
  obtain ⟨b1, b2, b3⟩ := b
  simp only at hfst hsnd hthd
  rw [hfst, hsnd, hthd]

theorem keyLtb_asymm {a b : Nat × Nat × String} (h : keyLtb a b = true) :
    keyLtb b a = false := by
  cases hba : keyLtb b a with
  | false => rfl
  | true =>
    have := keyLtb_trans h hba
    rw [keyLtb_irrefl] at this
    exact absurd this (by simp)

theorem keyLtb_le_trans {a b c : Nat × Nat × String} (h1 : keyLtb b a = false)
    (h2 : keyLtb c b = false) : keyLtb c a = false := by
  cases h : keyLtb c a with
  | false => rfl
  | true =>
    exfalso
    cases hbc : keyLtb b c with
    | false =>
      have hbceq : b = c := keyLtb_eq_of_not hbc h2
      rw [hbceq] at h1
      rw [h1] at h
      exact absurd h (by simp)
    | true =>
      have := keyLtb_trans hbc h
      rw [h1] at this
      exact absurd this (by simp)

theorem keyLtb_le_total (a b : Nat × Nat × String) :
    keyLtb b a = false ∨ keyLtb a b = false := by
  cases h : keyLtb b a with
  | false => exact Or.inl rfl
  | true => exact Or.inr (keyLtb_asymm h)

/- ## Claim C1: last_for_every_address / last_for_address return the maximal key. -/

theorem maxByKey_mem : ∀ {l : List SafeStatusRow} {m : SafeStatusRow},
    maxByKey l = some m → m ∈ l := by
  intro l
  induction l with
  | nil => intro m h; simp [maxByKey] at h
  | cons r rest ih =>
    intro m h
    cases hrest : maxByKey rest with
    | none =>
      simp only [maxByKey, hrest] at h
      cases h
      exact List.mem_cons_self _ _
    | some m2 =>
      simp only [maxByKey, hrest] at h
      by_cases hc : keyLtb (statusKey r) (statusKey m2) = true
      · rw [if_pos hc] at h
        cases h
        exact List.mem_cons_of_mem _ (ih hrest)
      · rw [if_neg hc] at h
        cases h
        exact List.mem_cons_self _ _

theorem maxByKey_eq_none : ∀ {l : List SafeStatusRow}, maxByKey l = none → l = [] := by
  intro l h
  cases l with
  | nil => rfl
  | cons r rest =>
    exfalso
    cases hrest : maxByKey rest with
    | none => simp only [maxByKey, hrest] at h; cases h
    | some m2 =>
      simp only [maxByKey, hrest] at h
      by_cases hc : keyLtb (statusKey r) (statusKey m2) = true
      · rw [if_pos hc] at h; cases h
      · rw [if_neg hc] at h; cases h

theorem maxByKey_strict_max : ∀ {l : List SafeStatusRow} {s : SafeStatusRow},
    s ∈ l → (∀ t ∈ l, t ≠ s → keyLtb (statusKey t) (statusKey s) = true) →
    maxByKey l = some s := by
  intro l
  induction l with
  | nil => intro s h; cases h
  | cons r rest ih =>
    intro s hmem hmax
    cases hrest : maxByKey rest with
    | none =>
      have : rest = [] := maxByKey_eq_none hrest
      subst this
      rcases List.mem_cons.mp hmem with h | h
      · rw [h]; rfl
      · cases h
    | some m =>
      simp only [maxByKey, hrest]
      have hm : m ∈ rest := maxByKey_mem hrest
      by_cases hr : r = s
      · subst hr
        by_cases hms : m = r
        · subst hms
          rw [if_neg (by rw [keyLtb_irrefl]; simp)]
        · have hlt : keyLtb (statusKey m) (statusKey r) = true :=
            hmax m (List.mem_cons_of_mem _ hm) hms
          rw [if_neg (by rw [keyLtb_asymm hlt]; simp)]
      · have hs : s ∈ rest := by
          rcases List.mem_cons.mp hmem with h | h
          · exact absurd h.symm hr
          · exact h
        have hms : maxByKey rest = some s :=
          ih hs (fun t ht hts => hmax t (List.mem_cons_of_mem _ ht) hts)
        rw [hrest] at hms
        cases hms
        rw [if_pos (hmax r (List.mem_cons_self _ _) hr)]


theorem filterMap_filter_head {F : String → Option SafeStatusRow} {address : String}
    {s : SafeStatusRow} (hF : ∀ a r, F a = some r → r.address = a) :
    ∀ l : List String, address ∈ l → F address = some s →
      ((l.filterMap F).filter (fun r => r.address == address)).head? = some s := by
  intro l
  induction l with
  | nil => intro h; cases h
  | cons a tl ih =>
    intro hmem hFs
    by_cases ha : a = address
    · subst ha
      rw [List.filterMap_cons, hFs]
      have : s.address = a := hF a s hFs
      simp [List.filter_cons, this]
    · have htl : address ∈ tl := by
        rcases List.mem_cons.mp hmem with h | h
        · exact absurd h.symm ha
        · exact h
      cases hFa : F a with
      | none => rw [List.filterMap_cons, hFa]; exact ih htl hFs
      | some r =>
        have hr : r.address = a := hF a r hFa
        rw [List.filterMap_cons, hFa]
        have : (r.address == address) = false := by
          simp [hr]
          exact ha
        simp only [List.filter_cons, this, Bool.false_eq_true, if_false]
        exact ih htl hFs

theorem last_for_address_of_strict_max (rows : List SafeStatusRow) (address : String)
    (s : SafeStatusRow) (hmem : s ∈ rows) (haddr : s.address = address)
    (hmax : ∀ t ∈ rows, t.address = address → t ≠ s →
      keyLtb (statusKey t) (statusKey s) = true) :
    last_for_address rows address = some s := by
  unfold last_for_address last_for_every_address
  apply filterMap_filter_head
  · intro a r hr
    have := maxByKey_mem hr
    have := (List.mem_filter.mp this).2
    exact beq_iff_eq.mp this
  · exact List.mem_dedup.mpr (List.mem_map.mpr ⟨s, hmem, haddr⟩)
  · apply maxByKey_strict_max
    · exact List.mem_filter.mpr ⟨hmem, beq_iff_eq.mpr haddr⟩
    · intro t ht hts
      have ht2 := List.mem_filter.mp ht
      exact hmax t ht2.1 (beq_iff_eq.mp ht2.2) hts

/-- C1: for an address with stored snapshots, last_for_address (through
last_for_every_address) returns exactly the snapshot with the maximal
(block id, transaction index, trace_address) key among the snapshots of that
address, and appending a snapshot with a strictly smaller key leaves the result
unchanged. -/
theorem safe_status_current_is_max_key (rows : List SafeStatusRow) (address : String)
    (s : SafeStatusRow) (hmem : s ∈ rows) (haddr : s.address = address)
    (hmax : ∀ t ∈ rows, t.address = address → t ≠ s →
      keyLtb (statusKey t) (statusKey s) = true) :
    last_for_address rows address = some s ∧
      ∀ t : SafeStatusRow, keyLtb (statusKey t) (statusKey s) = true →
        last_for_address (rows ++ [t]) address = some s := by
  constructor
  · exact last_for_address_of_strict_max rows address s hmem haddr hmax
  · intro t hlt
    apply last_for_address_of_strict_max (rows ++ [t]) address s
      (List.mem_append.mpr (Or.inl hmem)) haddr
    intro u hu huaddr hus
    rcases List.mem_append.mp hu with h | h
    · exact hmax u h huaddr hus
    · have : u = t := List.mem_singleton.mp h
      rw [this]
      exact hlt

/-- Witness of C1 at a concrete store: the block-2 snapshot is current, and stays
current after the block-0 snapshot arrives late. -/
theorem safe_status_current_is_max_key_witness :
    last_for_address c1Rows "0xsafe" = some c1Late ∧
      last_for_address (c1Rows ++ [c1Stale]) "0xsafe" = some c1Late := by
  obtain ⟨h1, h2⟩ := safe_status_current_is_max_key c1Rows "0xsafe" c1Late
    (by decide) (by decide) (by decide)
  exact ⟨h1, h2 c1Stale (by decide)⟩

/- ## Claim C2: the decode-eligibility predicate and work queue. -/

theorem pyTruthyBytes_iff {o : Option (List Nat)} :
    pyTruthyBytes o = true ↔ o ≠ none ∧ o ≠ some [] := by
  cases o with
  | none => simp [pyTruthyBytes]
  | some l =>
    cases l with
    | nil => simp [pyTruthyBytes]
    | cons x xs => simp [pyTruthyBytes]

theorem is_delegate_call_iff {it : InternalTx} :
    it.is_delegate_call = true ↔ it.call_type = some EthereumTxCallType.DELEGATE_CALL := by
  cases h : it.call_type with
  | none => simp [InternalTx.is_delegate_call, h]
  | some c => simp [InternalTx.is_delegate_call, h, beq_iff_eq]

theorem success_truthy_iff {tx : EthereumTx} :
    pyTruthyOptBool tx.success = true ↔ tx.status = some 1 := by
  cases h : tx.status with
  | none => simp [EthereumTx.success, pyTruthyOptBool, h]
  | some s => simp [EthereumTx.success, pyTruthyOptBool, h]

/-- C2: an internal transaction is in the can_be_decoded work queue with the
can_be_decoded property holding exactly when its call sub-kind is DELEGATE_CALL, its
error is null, its payload is present and non-empty, its owning transaction has
status 1, and no decoded row exists for it yet. -/
theorem internal_tx_decode_eligibility (db : HistoryDB) (it : InternalTx)
    (owning : EthereumTx) (hmem : it ∈ db.internal_txs)
    (howner : db.txOf it.ethereum_tx = some owning) :
    (it ∈ InternalTxQuerySet.can_be_decoded db ∧ it.can_be_decoded owning = true) ↔
      (it.call_type = some EthereumTxCallType.DELEGATE_CALL ∧ it.error = none ∧
       it.data ≠ none ∧ it.data ≠ some [] ∧ owning.status = some 1 ∧
       db.decodedOf it = none) := by
  constructor
  · rintro ⟨hq, hp⟩
    simp only [InternalTxQuerySet.can_be_decoded] at hq
    have hf := (List.mem_filter.mp hq).2
    simp only [Bool.and_eq_true] at hf
    obtain ⟨⟨⟨⟨hct, herr⟩, hstat⟩, hdec⟩, _⟩ := hf
    simp only [InternalTx.can_be_decoded, Bool.and_eq_true] at hp
    obtain ⟨⟨⟨_, _⟩, hb⟩, _⟩ := hp
    have hdata := pyTruthyBytes_iff.mp hb
    simp only [owningTxStatusIsOne, howner] at hstat
    exact ⟨beq_iff_eq.mp hct, beq_iff_eq.mp herr, hdata.1, hdata.2,
      beq_iff_eq.mp hstat, Option.isNone_iff_eq_none.mp hdec⟩
  · rintro ⟨h1, h2, h3, h4, h5, h6⟩
    constructor
    · simp only [InternalTxQuerySet.can_be_decoded]
      apply List.mem_filter.mpr
      refine ⟨hmem, ?_⟩
      simp only [Bool.and_eq_true]
      refine ⟨⟨⟨⟨beq_iff_eq.mpr h1, beq_iff_eq.mpr h2⟩, ?_⟩,
        Option.isNone_iff_eq_none.mpr h6⟩, ?_⟩
      · simp only [owningTxStatusIsOne, howner]
        exact beq_iff_eq.mpr h5
      · have : (it.data == none) = false := beq_eq_false_iff_ne.mpr h3
        rw [this]
        rfl
    · simp only [InternalTx.can_be_decoded, Bool.and_eq_true]
      refine ⟨⟨⟨is_delegate_call_iff.mpr h1, ?_⟩, pyTruthyBytes_iff.mpr ⟨h3, h4⟩⟩,
        success_truthy_iff.mpr h5⟩
      rw [h2]
      rfl

/-- Witness of C2 at a concrete database: the example delegate call with payload,
no error and a successful owning transaction is eligible. -/
theorem internal_tx_decode_eligibility_witness :
    c2Itx ∈ InternalTxQuerySet.can_be_decoded c2Db ∧
      c2Itx.can_be_decoded c2OwningTx = true :=
  (internal_tx_decode_eligibility c2Db c2Itx c2OwningTx (by decide) (by decide)).mpr
    (by refine ⟨rfl, rfl, ?_, ?_, rfl, rfl⟩ <;> decide)

/- ## Claim C3: the pending work queue membership and ordering. -/

theorem pendingMatches_iff {r : InternalTxDecodedRow} {safe_addresses : List String} :
    pendingMatches r safe_addresses = true ↔
      ((∃ a, r.internal_tx_from = some a ∧ a ∈ safe_addresses) ∨
        r.function_name = "setup") := by
  cases h : r.internal_tx_from with
  | none => simp [pendingMatches, h]
  | some a => simp [pendingMatches, h]

/-- C3: pending_for_safes holds exactly the unprocessed decoded internal
transactions whose from address is an indexed Safe or whose function name is setup,
and its output is sorted ascending by (block id, transaction index,
trace_address). -/
theorem pending_for_safes_members_and_order (rows : List InternalTxDecodedRow)
    (safe_addresses : List String) :
    (∀ r : InternalTxDecodedRow,
        r ∈ pending_for_safes rows safe_addresses ↔
          r ∈ rows ∧ r.processed = false ∧
            ((∃ a, r.internal_tx_from = some a ∧ a ∈ safe_addresses) ∨
              r.function_name = "setup")) ∧
      List.Sorted decodedLe (pending_for_safes rows safe_addresses) := by
  constructor
  · intro r
    unfold pending_for_safes
    rw [(List.perm_insertionSort decodedLe _).mem_iff, List.mem_filter]
    simp only [Bool.and_eq_true, Bool.not_eq_true']
    constructor
    · rintro ⟨hmem, hproc, hmatch⟩
      exact ⟨hmem, hproc, pendingMatches_iff.mp hmatch⟩
    · rintro ⟨hmem, hproc, hmatch⟩
      exact ⟨hmem, hproc, pendingMatches_iff.mpr hmatch⟩
  · haveI : IsTotal InternalTxDecodedRow decodedLe := ⟨fun a b => keyLtb_le_total _ _⟩
    haveI : IsTrans InternalTxDecodedRow decodedLe :=
      ⟨fun _ _ _ h1 h2 => keyLtb_le_trans h1 h2⟩
    exact List.sorted_insertionSort decodedLe _

/- ## Claim C4: the cursor update rule of update_addresses. -/

theorem find?_set_self :
    ∀ (l : List (String × Option Int)) (f : String) (T : Int),
      (l.find? (fun p => p.1 == f)).isSome = true →
      (l.map (fun p => if p.1 == f then (p.1, some T) else p)).find?
          (fun p => p.1 == f) = some (f, some T) := by
  intro l f T h
  induction l with
  | nil => simp at h
  | cons p tl ih =>
    by_cases hp : (p.1 == f) = true
    · rw [List.map_cons, if_pos hp,
        @List.find?_cons_of_pos _ (fun q => q.1 == f) (p.1, some T) _ hp]
      rw [beq_iff_eq.mp hp]
    · rw [@List.find?_cons_of_neg _ (fun q => q.1 == f) p tl hp] at h
      rw [List.map_cons, if_neg hp,
        @List.find?_cons_of_neg _ (fun q => q.1 == f) p _ hp]
      exact ih h

theorem find?_set_other :
    ∀ (l : List (String × Option Int)) (f g : String) (T : Int), g ≠ f →
      (l.map (fun p => if p.1 == f then (p.1, some T) else p)).find?
          (fun p => p.1 == g) = l.find? (fun p => p.1 == g) := by
  intro l f g T hgf
  induction l with
  | nil => rfl
  | cons p tl ih =>
    by_cases hp : (p.1 == f) = true
    · have hpg : ¬((p.1 == g) = true) := by
        intro hx
        apply hgf
        rw [← beq_iff_eq.mp hx]
        exact beq_iff_eq.mp hp
      rw [List.map_cons, if_pos hp,
        @List.find?_cons_of_neg _ (fun q => q.1 == g) (p.1, some T) _ hpg,
        @List.find?_cons_of_neg _ (fun q => q.1 == g) p tl hpg]
      exact ih
    · rw [List.map_cons, if_neg hp]
      by_cases hpg : (p.1 == g) = true
      · rw [@List.find?_cons_of_pos _ (fun q => q.1 == g) p _ hpg,
          @List.find?_cons_of_pos _ (fun q => q.1 == g) p tl hpg]
      · rw [@List.find?_cons_of_neg _ (fun q => q.1 == g) p _ hpg,
          @List.find?_cons_of_neg _ (fun q => q.1 == g) p tl hpg]
        exact ih

theorem getCursor_setCursor_self {r : MonitoredAddressRow} {f : String} {T C : Int}
    (h : getCursor r f = some C) : getCursor (setCursor r f T) f = some T := by
  unfold getCursor at h ⊢
  unfold setCursor
  have hsome : (r.cursors.find? (fun p => p.1 == f)).isSome = true := by
    cases hfind : r.cursors.find? (fun p => p.1 == f) with
    | none => rw [hfind] at h; cases h
    | some p => simp
  simp only
  rw [find?_set_self r.cursors f T hsome]

theorem getCursor_setCursor_other {r : MonitoredAddressRow} {f g : String} {T : Int}
    (hgf : g ≠ f) : getCursor (setCursor r f T) g = getCursor r g := by
  unfold getCursor setCursor
  simp only
  rw [find?_set_other r.cursors f g T hgf]

/-- C4: update_addresses sets the named cursor of a listed address to the target
block number exactly when its current cursor is at least from_block_number - 1
(leaving every other column of the row unchanged), leaves a listed address with an
older cursor untouched, and never modifies rows whose address is not listed. -/
theorem update_addresses_cursor_rule (rows : List MonitoredAddressRow)
    (addresses : List String) (F T : Int) (f : String) :
    (update_addresses rows addresses F T f).1.length = rows.length ∧
    ∀ (i : Nat) (hi : i < rows.length)
      (hi2 : i < (update_addresses rows addresses F T f).1.length),
      ((rows.get ⟨i, hi⟩).address ∉ addresses →
        (update_addresses rows addresses F T f).1.get ⟨i, hi2⟩ = rows.get ⟨i, hi⟩) ∧
      ((rows.get ⟨i, hi⟩).address ∈ addresses →
        ∀ C : Int, getCursor (rows.get ⟨i, hi⟩) f = some C →
          (F - 1 ≤ C →
            ((update_addresses rows addresses F T f).1.get ⟨i, hi2⟩).address =
                (rows.get ⟨i, hi⟩).address ∧
              getCursor ((update_addresses rows addresses F T f).1.get ⟨i, hi2⟩) f =
                some T ∧
              ∀ g : String, g ≠ f →
                getCursor ((update_addresses rows addresses F T f).1.get ⟨i, hi2⟩) g =
                  getCursor (rows.get ⟨i, hi⟩) g) ∧
          (C < F - 1 →
            (update_addresses rows addresses F T f).1.get ⟨i, hi2⟩ = rows.get ⟨i, hi⟩)) := by
  constructor
  · simp [update_addresses]
  · intro i hi hi2
    have hget : (update_addresses rows addresses F T f).1.get ⟨i, hi2⟩ =
        (if cursorMatches (rows.get ⟨i, hi⟩) addresses F f then
          setCursor (rows.get ⟨i, hi⟩) f T
        else rows.get ⟨i, hi⟩) := by
      simp [update_addresses, List.get_eq_getElem, List.getElem_map]
    constructor
    · intro hnotin
      have hmatch : cursorMatches (rows.get ⟨i, hi⟩) addresses F f = false := by
        unfold cursorMatches
        have : (addresses.contains (rows.get ⟨i, hi⟩).address) = false := by
          simpa using hnotin
        rw [this]
        rfl
      rw [hget, hmatch]
      simp
    · intro hin C hC
      constructor
      · intro hge
        have hmatch : cursorMatches (rows.get ⟨i, hi⟩) addresses F f = true := by
          unfold cursorMatches
          have hcont : addresses.contains (rows.get ⟨i, hi⟩).address = true := by
            simpa using hin
          rw [hcont, hC]
          simpa using hge
        rw [hget, hmatch, if_pos rfl]
        refine ⟨rfl, getCursor_setCursor_self hC, fun g hg => getCursor_setCursor_other hg⟩
      · intro hlt
        have hmatch : cursorMatches (rows.get ⟨i, hi⟩) addresses F f = false := by
          unfold cursorMatches
          have hcont : addresses.contains (rows.get ⟨i, hi⟩).address = true := by
            simpa using hin
          rw [hcont, hC]
          simp only [Bool.true_and, decide_eq_false_iff_not]
          omega
        rw [hget, hmatch]
        simp

/- ## Claim C5: trace neighbors.  The successor works and the two lookups are
inverse where defined, but on the first trace of a transaction get_previous_trace
evaluates internal_txs[-1]: a Django queryset refuses negative indexing with an
error that is not an IndexError, so the except clause does not turn it into None. -/

/-- C5 evaluation at a concrete transaction with traces 0 and 0,0: the neighbor
walks compose where defined and the last trace has no successor, but
get_previous_trace on the first trace raises instead of returning None. -/
theorem get_previous_trace_first_trace_raises :
    get_previous_trace c5Db c5TraceA = PyLookup.negIndexUnsupported ∧
      get_next_trace c5Db c5TraceA = PyLookup.ok (some c5TraceB) ∧
      get_previous_trace c5Db c5TraceB = PyLookup.ok (some c5TraceA) ∧
      get_next_trace c5Db c5TraceB = PyLookup.ok none := by decide

/- ## Claim C6: sorting by the stored trace_address string is not the call-tree
numeric order.  The column stores a comma-joined decimal string and order_by
compares it as text, so the stored key of path 10 sorts before the stored key of
path 2 although the numeric traversal order has 2 first. -/

/-- C6 evaluation at the paths 2 and 10: the text order of the stored keys inverts
the componentwise numeric order of the paths. -/
theorem trace_address_string_order_mismatch :
    strLtb (trace_address_to_str [10]) (trace_address_to_str [2]) = true ∧
      traceListLtb [2] [10] = true ∧
      List.insertionSort storedTraceLe
          [trace_address_to_str [2], trace_address_to_str [10]] =
        [trace_address_to_str [10], trace_address_to_str [2]] := by decide

/- ## Claims C7 and C8: batch transaction ingestion. -/

theorem key_unique_mem {α : Type} (k : α → String) {l : List α}
    (hnd : (l.map k).Nodup) {u t : α} (hu : u ∈ l) (ht : t ∈ l) (he : k u = k t) :
    u = t := by
  induction l with
  | nil => cases hu
  | cons a rest ih =>
    have hnd2 : k a ∉ rest.map k ∧ (rest.map k).Nodup := by
      rw [List.map_cons] at hnd
      exact List.nodup_cons.mp hnd
    rcases List.mem_cons.mp hu with hu1 | hu2 <;> rcases List.mem_cons.mp ht with ht1 | ht2
    · rw [hu1, ht1]
    · exfalso
      apply hnd2.1
      rw [hu1] at he
      rw [he]
      exact List.mem_map.mpr ⟨t, ht2, rfl⟩
    · exfalso
      apply hnd2.1
      rw [ht1] at he
      rw [← he]
      exact List.mem_map.mpr ⟨u, hu2, rfl⟩
    · exact ih hnd2.2 hu2 ht2

theorem find?_key_eq {α : Type} (k : α → String) {l : List α}
    (hnd : (l.map k).Nodup) {t : α} (ht : t ∈ l) :
    l.find? (fun x => k x == k t) = some t := by
  have hsome : (l.find? (fun x => k x == k t)).isSome = true :=
    List.find?_isSome.mpr ⟨t, ht, beq_iff_eq.mpr rfl⟩
  cases hfind : l.find? (fun x => k x == k t) with
  | none => rw [hfind] at hsome; cases hsome
  | some x =>
    have hx : k x = k t :=
      beq_iff_eq.mp (@List.find?_some _ (fun x => k x == k t) x l hfind)
    have hmem : x ∈ l := List.mem_of_find?_eq_some hfind
    rw [key_unique_mem k hnd hmem ht hx]

theorem filter_eq_single_of_unique_key {α : Type} (k : α → String) {l : List α}
    (hnd : (l.map k).Nodup) {t : α} (ht : t ∈ l) {p : α → Bool} (hpt : p t = true)
    (himp : ∀ u ∈ l, p u = true → k u = k t) : l.filter p = [t] := by
  induction l with
  | nil => cases ht
  | cons a rest ih =>
    have hnd2 : k a ∉ rest.map k ∧ (rest.map k).Nodup := by
      rw [List.map_cons] at hnd
      exact List.nodup_cons.mp hnd
    rcases List.mem_cons.mp ht with h1 | h2
    · rw [← h1]
      rw [List.filter_cons, if_pos (by rw [hpt])]
      have hrest : rest.filter p = [] := by
        rw [List.filter_eq_nil_iff]
        intro u hu hpu
        apply hnd2.1
        rw [← h1]
        have := himp u (List.mem_cons_of_mem _ hu) hpu
        rw [← this]
        exact List.mem_map.mpr ⟨u, hu, rfl⟩
      rw [hrest]
    · have hpa : ¬(p a = true) := by
        intro hpa
        apply hnd2.1
        have := himp a (List.mem_cons_self _ _) hpa
        rw [this]
        exact List.mem_map.mpr ⟨t, h2, rfl⟩
      rw [List.filter_cons, if_neg (by simpa using hpa)]
      exact ih hnd2.2 h2 (fun u hu hpu => himp u (List.mem_cons_of_mem _ hu) hpu)

theorem get_or_create_from_block_txs (db : TxDB) (b : ClientBlock) (c : Option Nat) :
    (get_or_create_from_block db b c).1.txs = db.txs := by
  unfold get_or_create_from_block
  cases h : db.blocks.find? (fun x => x.number == b.number) <;> simp [h]

theorem get_or_create_from_block_number (db : TxDB) (b : ClientBlock) (c : Option Nat) :
    (get_or_create_from_block db b c).2.number = b.number := by
  unfold get_or_create_from_block
  cases h : db.blocks.find? (fun x => x.number == b.number) with
  | none => simp [h]
  | some blk =>
    simp only [h]
    exact beq_iff_eq.mp
      (@List.find?_some _ (fun x => x.number == b.number) blk db.blocks h)

/-- C7: when a batch resolves a hash stored as an unmined placeholder, the same row
is upgraded in place (the table keeps exactly one row per hash): only block,
gas_used, logs, status and transaction_index change, every other column keeps its
stored value; a stored transaction that already has a block is returned as is and
the database is not modified at all. -/
theorem tx_placeholder_upgrade (db : TxDB) (client : EthereumClient) (h : String)
    (t : EthereumTx) (r : TxReceipt) (ct : ClientTx) (bn : Nat)
    (hkeys : (db.txs.map EthereumTx.tx_hash).Nodup)
    (ht : t ∈ db.txs) (hth : t.tx_hash = h)
    (hrec : client.receipts h = some r) (hrbn : ∃ n, r.blockNumber = some n)
    (htx : client.transactions h = some ct) (hcth : ct.hash = h)
    (hctbn : ct.blockNumber = some bn)
    (hblk : (client.blocks bn).number = bn) :
    (t.block = none →
      ∃ u : EthereumTx,
        (create_or_update_from_tx_hashes db [h] client).1.txs =
            db.txs.map (fun x => if x.tx_hash == h then u else x) ∧
          u.tx_hash = t.tx_hash ∧ u.block = some bn ∧
          u.gas_used = some r.gasUsed ∧
          u.logs = some (r.logs.map clean_receipt_log) ∧
          u.status = r.status ∧ u.transaction_index = some r.transactionIndex ∧
          u._from = t._from ∧ u.gas = t.gas ∧ u.gas_price = t.gas_price ∧
          u.data = t.data ∧ u.nonce = t.nonce ∧ u.to_ = t.to_ ∧ u.value = t.value) ∧
    (t.block ≠ none →
      create_or_update_from_tx_hashes db [h] client = (db, .ok [some t])) := by
  subst hcth
  constructor
  · intro htb
    have hfilter :
        db.txs.filter (fun x => [ct.hash].contains x.tx_hash && x.block.isSome) = [] := by
      rw [List.filter_eq_nil_iff]
      intro u hu hpu
      rw [Bool.and_eq_true] at hpu
      have hu1 : u.tx_hash = ct.hash := by
        have := hpu.1
        simpa using this
      have hut : u = t := key_unique_mem EthereumTx.tx_hash hkeys hu ht (by rw [hu1, hth])
      rw [hut, htb] at hpu
      exact absurd hpu.2 (by simp)
    have hdict : dbDict db [ct.hash] = [(ct.hash, none)] := by
      unfold dbDict initialDict
      rw [hfilter]
      rfl
    have hmiss : missingHashes db [ct.hash] = [ct.hash] := by
      unfold missingHashes
      rw [hdict]
      rfl
    obtain ⟨n, hrbn2⟩ := hrbn
    have hvr : validateReceipts client [ct.hash] = .ok [r] := by
      simp [validateReceipts, hrec, hrbn2]
    have hvt : validateTxs client [ct.hash] = .ok ([ct], [bn]) := by
      simp [validateTxs, htx, hctbn]
    have hfind : db.txs.find? (fun x => x.tx_hash == ct.hash) = some t := by
      rw [← hth]
      exact find?_key_eq EthereumTx.tx_hash hkeys ht
    refine ⟨update_with_receipt_and_block t bn r, ?_,
      ?_, ?_, ?_, ?_, ?_, ?_, ?_, ?_, ?_, ?_, ?_, ?_, ?_⟩
    · simp only [create_or_update_from_tx_hashes, hdict, hmiss, List.isEmpty_cons,
        Bool.false_eq_true, if_false, hvr, hvt, List.map_cons, List.map_nil, zip3,
        List.foldl_cons, List.foldl_nil, ingestOne, get_or_create_from_block_txs,
        get_or_create_from_block_number, hblk, hfind]
    · simp [update_with_receipt_and_block, htb]
    · simp [update_with_receipt_and_block, htb]
    · simp [update_with_receipt_and_block, htb]
    · simp [update_with_receipt_and_block, htb]
    · simp [update_with_receipt_and_block, htb]
    · simp [update_with_receipt_and_block, htb]
    · simp [update_with_receipt_and_block, htb]
    · simp [update_with_receipt_and_block, htb]
    · simp [update_with_receipt_and_block, htb]
    · simp [update_with_receipt_and_block, htb]
    · simp [update_with_receipt_and_block, htb]
    · simp [update_with_receipt_and_block, htb]
    · simp [update_with_receipt_and_block, htb]
  · intro htb
    have hsome : t.block.isSome = true := by
      cases hb : t.block with
      | none => exact absurd hb htb
      | some b => rfl
    have hfilter :
        db.txs.filter (fun x => [ct.hash].contains x.tx_hash && x.block.isSome) = [t] := by
      apply filter_eq_single_of_unique_key EthereumTx.tx_hash hkeys ht
      · rw [Bool.and_eq_true]
        refine ⟨?_, hsome⟩
        simp [hth]
      · intro u hu hpu
        rw [Bool.and_eq_true] at hpu
        have : u.tx_hash = ct.hash := by
          have := hpu.1
          simpa using this
        rw [this, hth]
    have hdict : dbDict db [ct.hash] = [(ct.hash, some t)] := by
      unfold dbDict initialDict
      rw [hfilter]
      simp [pyDedup, dictSet, hth]
    have hmiss : missingHashes db [ct.hash] = [] := by
      unfold missingHashes
      rw [hdict]
      rfl
    simp [create_or_update_from_tx_hashes, hdict, hmiss]

/-- Witness of C7 at a concrete store: the placeholder for hash 0xabc is upgraded in
place with the receipt data, every unrelated field unchanged. -/
theorem tx_placeholder_upgrade_witness :
    ∃ u : EthereumTx,
      (create_or_update_from_tx_hashes c7Db ["0xabc"] c7Client).1.txs =
          c7Db.txs.map (fun x => if x.tx_hash == "0xabc" then u else x) ∧
        u.tx_hash = c7Placeholder.tx_hash ∧ u.block = some 9 ∧
        u.gas_used = some c7Receipt.gasUsed ∧
        u.logs = some (c7Receipt.logs.map clean_receipt_log) ∧
        u.status = c7Receipt.status ∧
        u.transaction_index = some c7Receipt.transactionIndex ∧
        u._from = c7Placeholder._from ∧ u.gas = c7Placeholder.gas ∧
        u.gas_price = c7Placeholder.gas_price ∧ u.data = c7Placeholder.data ∧
        u.nonce = c7Placeholder.nonce ∧ u.to_ = c7Placeholder.to_ ∧
        u.value = c7Placeholder.value :=
  (tx_placeholder_upgrade c7Db c7Client "0xabc" c7Placeholder c7Receipt c7ClientTx 9
    (by decide) (by decide) rfl (by decide) ⟨9, rfl⟩ (by decide) rfl rfl rfl).1 rfl

theorem validateReceipts_error_shape (client : EthereumClient) :
    ∀ (hs : List String) (e : TxError), validateReceipts client hs = .error e →
      ∃ h ∈ hs, (e = .notFound h ∧ client.receipts h = none) ∨
        (∃ r, e = .withoutBlock h ∧ client.receipts h = some r ∧
          r.blockNumber = none) := by
  intro hs
  induction hs with
  | nil => intro e he; simp [validateReceipts] at he
  | cons h0 rest ih =>
    intro e he
    cases hr : client.receipts h0 with
    | none =>
      simp only [validateReceipts, hr, Except.error.injEq] at he
      exact ⟨h0, List.mem_cons_self _ _, Or.inl ⟨he.symm, hr⟩⟩
    | some r =>
      cases hb : r.blockNumber with
      | none =>
        simp only [validateReceipts, hr, hb, Except.error.injEq] at he
        exact ⟨h0, List.mem_cons_self _ _, Or.inr ⟨r, he.symm, hr, hb⟩⟩
      | some n =>
        simp only [validateReceipts, hr, hb] at he
        cases hrec : validateReceipts client rest with
        | error e2 =>
          rw [hrec] at he
          simp only [Except.error.injEq] at he
          obtain ⟨h1, hm, hcase⟩ := ih e2 hrec
          rw [he] at hcase
          exact ⟨h1, List.mem_cons_of_mem _ hm, hcase⟩
        | ok rs =>
          rw [hrec] at he
          simp at he

theorem validateReceipts_ok_forall (client : EthereumClient) :
    ∀ (hs : List String) (rs : List TxReceipt), validateReceipts client hs = .ok rs →
      ∀ x ∈ hs, ∃ r, client.receipts x = some r ∧ ∃ n, r.blockNumber = some n := by
  intro hs
  induction hs with
  | nil => intro rs _ x hx; cases hx
  | cons h0 rest ih =>
    intro rs he x hx
    cases hr : client.receipts h0 with
    | none => simp [validateReceipts, hr] at he
    | some r =>
      cases hb : r.blockNumber with
      | none => simp [validateReceipts, hr, hb] at he
      | some n =>
        simp only [validateReceipts, hr, hb] at he
        cases hrec : validateReceipts client rest with
        | error e2 => rw [hrec] at he; simp at he
        | ok rs2 =>
          rcases List.mem_cons.mp hx with hx1 | hx2
          · exact ⟨r, hx1 ▸ hr, n, hb⟩
          · exact ih rs2 hrec x hx2

theorem validateTxs_error_shape (client : EthereumClient) :
    ∀ (hs : List String) (e : TxError), validateTxs client hs = .error e →
      ∃ h ∈ hs, (e = .notFound h ∧ client.transactions h = none) ∨
        (∃ t, e = .withoutBlock h ∧ client.transactions h = some t ∧
          t.blockNumber = none) := by
  intro hs
  induction hs with
  | nil => intro e he; simp [validateTxs] at he
  | cons h0 rest ih =>
    intro e he
    cases hr : client.transactions h0 with
    | none =>
      simp only [validateTxs, hr, Except.error.injEq] at he
      exact ⟨h0, List.mem_cons_self _ _, Or.inl ⟨he.symm, hr⟩⟩
    | some t =>
      cases hb : t.blockNumber with
      | none =>
        simp only [validateTxs, hr, hb, Except.error.injEq] at he
        exact ⟨h0, List.mem_cons_self _ _, Or.inr ⟨t, he.symm, hr, hb⟩⟩
      | some n =>
        simp only [validateTxs, hr, hb] at he
        cases hrec : validateTxs client rest with
        | error e2 =>
          rw [hrec] at he
          simp only [Except.error.injEq] at he
          obtain ⟨h1, hm, hcase⟩ := ih e2 hrec
          rw [he] at hcase
          exact ⟨h1, List.mem_cons_of_mem _ hm, hcase⟩
        | ok p =>
          rw [hrec] at he
          simp at he

theorem validateTxs_ok_forall (client : EthereumClient) :
    ∀ (hs : List String) (p : List ClientTx × List Nat), validateTxs client hs = .ok p →
      ∀ x ∈ hs, ∃ t, client.transactions x = some t ∧ ∃ n, t.blockNumber = some n := by
  intro hs
  induction hs with
  | nil => intro p _ x hx; cases hx
  | cons h0 rest ih =>
    intro p he x hx
    cases hr : client.transactions h0 with
    | none => simp [validateTxs, hr] at he
    | some t =>
      cases hb : t.blockNumber with
      | none => simp [validateTxs, hr, hb] at he
      | some n =>
        simp only [validateTxs, hr, hb] at he
        cases hrec : validateTxs client rest with
        | error e2 => rw [hrec] at he; simp at he
        | ok p2 =>
          rcases List.mem_cons.mp hx with hx1 | hx2
          · exact ⟨t, hx1 ▸ hr, n, hb⟩
          · exact ih p2 hrec x hx2

/-- C8: the batch resolver fails with a distinct exception per cause — notFound when
a missing receipt or transaction stays missing, withoutBlock when a found receipt or
transaction has no block number — it fails whenever any unresolved hash has such a
problem, and a failing call leaves the database untouched. -/
theorem create_or_update_batch_failure (db : TxDB) (tx_hashes : List String)
    (client : EthereumClient) :
    (∀ e, (create_or_update_from_tx_hashes db tx_hashes client).2 = .error e →
        (create_or_update_from_tx_hashes db tx_hashes client).1 = db) ∧
    (∀ h, (create_or_update_from_tx_hashes db tx_hashes client).2 =
          .error (.notFound h) →
        h ∈ missingHashes db tx_hashes ∧
          (client.receipts h = none ∨ client.transactions h = none)) ∧
    (∀ h, (create_or_update_from_tx_hashes db tx_hashes client).2 =
          .error (.withoutBlock h) →
        h ∈ missingHashes db tx_hashes ∧
          ((∃ r, client.receipts h = some r ∧ r.blockNumber = none) ∨
            (∃ t, client.transactions h = some t ∧ t.blockNumber = none))) ∧
    ((∃ h ∈ missingHashes db tx_hashes,
        client.receipts h = none ∨ client.transactions h = none ∨
          (∃ r, client.receipts h = some r ∧ r.blockNumber = none) ∨
          (∃ t, client.transactions h = some t ∧ t.blockNumber = none)) →
      ∃ e, (create_or_update_from_tx_hashes db tx_hashes client).2 = .error e) := by
  have hcases :
      (missingHashes db tx_hashes = [] ∧
        ∃ v, (create_or_update_from_tx_hashes db tx_hashes client).2 = .ok v) ∨
      (∃ rs tb, validateReceipts client (missingHashes db tx_hashes) = .ok rs ∧
        validateTxs client (missingHashes db tx_hashes) = .ok tb ∧
        ∃ v, (create_or_update_from_tx_hashes db tx_hashes client).2 = .ok v) ∨
      (∃ e, (create_or_update_from_tx_hashes db tx_hashes client).2 = .error e ∧
        (create_or_update_from_tx_hashes db tx_hashes client).1 = db ∧
        (validateReceipts client (missingHashes db tx_hashes) = .error e ∨
          ∃ rs, validateReceipts client (missingHashes db tx_hashes) = .ok rs ∧
            validateTxs client (missingHashes db tx_hashes) = .error e)) := by
    simp only [create_or_update_from_tx_hashes]
    split
    · rename_i hemp
      exact Or.inl ⟨List.isEmpty_iff.mp hemp, _, rfl⟩
    · split
      · rename_i e heq
        exact Or.inr (Or.inr ⟨e, rfl, rfl, Or.inl heq⟩)
      · rename_i rs heqR
        split
        · rename_i e heqT
          exact Or.inr (Or.inr ⟨e, rfl, rfl, Or.inr ⟨rs, heqR, heqT⟩⟩)
        · rename_i tb heqT
          exact Or.inr (Or.inl ⟨rs, tb, heqR, heqT, _, rfl⟩)
  refine ⟨?_, ?_, ?_, ?_⟩
  · intro e he
    rcases hcases with ⟨_, v, hok⟩ | ⟨_, _, _, _, v, hok⟩ | ⟨e2, he2, hdb, _⟩
    · rw [hok] at he; cases he
    · rw [hok] at he; cases he
    · exact hdb
  · intro h he
    rcases hcases with ⟨_, v, hok⟩ | ⟨_, _, _, _, v, hok⟩ | ⟨e2, he2, _, hcause⟩
    · rw [hok] at he; cases he
    · rw [hok] at he; cases he
    · rw [he] at he2
      have he2 : e2 = TxError.notFound h := by
        have := he2
        simp only [Except.error.injEq] at this
        exact this.symm
      subst he2
      rcases hcause with hR | ⟨rs, _, hT⟩
      · obtain ⟨h1, hm, hcase⟩ := validateReceipts_error_shape client _ _ hR
        rcases hcase with ⟨heq, hnone⟩ | ⟨r, heq, _, _⟩
        · have : h1 = h := by
            injection heq with hx
            exact hx.symm
          subst this
          exact ⟨hm, Or.inl hnone⟩
        · cases heq
      · obtain ⟨h1, hm, hcase⟩ := validateTxs_error_shape client _ _ hT
        rcases hcase with ⟨heq, hnone⟩ | ⟨t, heq, _, _⟩
        · have : h1 = h := by
            injection heq with hx
            exact hx.symm
          subst this
          exact ⟨hm, Or.inr hnone⟩
        · cases heq
  · intro h he
    rcases hcases with ⟨_, v, hok⟩ | ⟨_, _, _, _, v, hok⟩ | ⟨e2, he2, _, hcause⟩
    · rw [hok] at he; cases he
    · rw [hok] at he; cases he
    · rw [he] at he2
      have he2 : e2 = TxError.withoutBlock h := by
        have := he2
        simp only [Except.error.injEq] at this
        exact this.symm
      subst he2
      rcases hcause with hR | ⟨rs, _, hT⟩
      · obtain ⟨h1, hm, hcase⟩ := validateReceipts_error_shape client _ _ hR
        rcases hcase with ⟨heq, _⟩ | ⟨r, heq, hsome, hnone⟩
        · cases heq
        · have : h1 = h := by
            injection heq with hx
            exact hx.symm
          subst this
          exact ⟨hm, Or.inl ⟨r, hsome, hnone⟩⟩
      · obtain ⟨h1, hm, hcase⟩ := validateTxs_error_shape client _ _ hT
        rcases hcase with ⟨heq, _⟩ | ⟨t, heq, hsome, hnone⟩
        · cases heq
        · have : h1 = h := by
            injection heq with hx
            exact hx.symm
          subst this
          exact ⟨hm, Or.inr ⟨t, hsome, hnone⟩⟩
  · rintro ⟨h, hm, hbad⟩
    rcases hcases with ⟨hnil, _⟩ | ⟨rs, tb, hokR, hokT, _⟩ | ⟨e2, he2, _, _⟩
    · rw [hnil] at hm; cases hm
    · exfalso
      obtain ⟨r, hrsome, n, hrbn⟩ := validateReceipts_ok_forall client _ _ hokR h hm
      obtain ⟨t, htsome, m, htbn⟩ := validateTxs_ok_forall client _ _ hokT h hm
      rcases hbad with hx | hx | ⟨r2, hx, hbx⟩ | ⟨t2, hx, hbx⟩
      · rw [hx] at hrsome; cases hrsome
      · rw [hx] at htsome; cases htsome
      · rw [hx] at hrsome
        have : r2 = r := by injection hrsome
        subst this
        rw [hbx] at hrbn
        cases hrbn
      · rw [hx] at htsome
        have : t2 = t := by injection htsome
        subst this
        rw [hbx] at htbn
        cases htbn
    · exact ⟨e2, he2⟩

/- ## Claim C9: ERC20 balance aggregation. -/

/-- C9: erc20_tokens_with_balance returns one entry per token contract address
appearing among the erc20 transfer events that involve the queried address, each
balance being the sum of the event values signed negative when the address is the
from argument and positive otherwise, ordered by descending balance. -/
theorem erc20_balance_aggregation (events : List EthereumEvent) (address : String) :
    (∀ p ∈ erc20_tokens_with_balance events address,
        p.2 = (((erc20_events events none (some address)).filter
            (fun e => e.address == p.1)).map (signedValue address)).sum) ∧
    ((erc20_tokens_with_balance events address).map Prod.fst).Nodup ∧
    (∀ t : String, t ∈ (erc20_tokens_with_balance events address).map Prod.fst ↔
        t ∈ (erc20_events events none (some address)).map (fun e => e.address)) ∧
    List.Sorted balanceDesc (erc20_tokens_with_balance events address) := by
  have hperm :
      (erc20_tokens_with_balance events address).Perm
        (((erc20_events events none (some address)).map
            (fun e => e.address)).dedup.map
          (fun t => (t, (((erc20_events events none (some address)).filter
              (fun e => e.address == t)).map (signedValue address)).sum))) :=
    List.perm_insertionSort balanceDesc _
  have hfst :
      ((((erc20_events events none (some address)).map
          (fun e => e.address)).dedup.map
        (fun t => (t, (((erc20_events events none (some address)).filter
            (fun e => e.address == t)).map (signedValue address)).sum))).map
        Prod.fst) =
        ((erc20_events events none (some address)).map (fun e => e.address)).dedup := by
    rw [List.map_map]
    exact (List.map_congr_left (fun a _ => rfl)).trans (List.map_id _)
  refine ⟨?_, ?_, ?_, ?_⟩
  · intro p hp
    rw [hperm.mem_iff] at hp
    obtain ⟨t, _, hpt⟩ := List.mem_map.mp hp
    rw [← hpt]
  · rw [(hperm.map Prod.fst).nodup_iff, hfst]
    exact List.nodup_dedup _
  · intro t
    rw [(hperm.map Prod.fst).mem_iff, hfst, List.mem_dedup]
  · haveI : IsTotal (String × Int) balanceDesc := ⟨fun a b => Int.le_total b.2 a.2⟩
    haveI : IsTrans (String × Int) balanceDesc :=
      ⟨fun _ _ _ h1 h2 => le_trans h2 h1⟩
    exact List.sorted_insertionSort balanceDesc _

/- ## Claim C10: the event validation requires both classifying keys. -/

/-- C10: get_or_create_erc20_or_721_event raises its ValueError exactly when the
arguments lack the value key or lack the tokenId key; an event that passes (and so
reaches the store, appended when not already present) carries both keys. -/
theorem erc20_721_event_requires_both_keys (events : List EthereumEvent)
    (decoded_event : DecodedEventDict) :
    ((hasArgKey decoded_event.args "value" = false ∨
        hasArgKey decoded_event.args "tokenId" = false) ↔
      get_or_create_erc20_or_721_event events decoded_event =
        .error (.valueError "Invalid ERC20 or ERC721 event")) ∧
    (∀ out, get_or_create_erc20_or_721_event events decoded_event = .ok out →
      hasArgKey decoded_event.args "value" = true ∧
      hasArgKey decoded_event.args "tokenId" = true ∧
      (out.2.2 = true → out.1 = events ++ [out.2.1])) := by
  by_cases hcond : (!(hasArgKey decoded_event.args "value") ||
      !(hasArgKey decoded_event.args "tokenId")) = true
  · constructor
    · constructor
      · intro _
        rw [get_or_create_erc20_or_721_event, if_pos hcond]
      · intro _
        rcases Bool.or_eq_true _ _ |>.mp hcond with hx | hx
        · refine Or.inl ?_
          simp at hx
          exact hx
        · refine Or.inr ?_
          simp at hx
          exact hx
    · intro out hout
      rw [get_or_create_erc20_or_721_event, if_pos hcond] at hout
      cases hout
  · have hboth : hasArgKey decoded_event.args "value" = true ∧
        hasArgKey decoded_event.args "tokenId" = true := by
      rcases hv : hasArgKey decoded_event.args "value" with _ | _ <;>
        rcases ht : hasArgKey decoded_event.args "tokenId" with _ | _ <;>
          simp [hv, ht] at hcond ⊢
    constructor
    · constructor
      · intro hl
        exfalso
        rcases hl with hx | hx
        · rw [hboth.1] at hx; cases hx
        · rw [hboth.2] at hx; cases hx
      · intro he
        exfalso
        rw [get_or_create_erc20_or_721_event, if_neg hcond] at he
        cases hfind : events.find? (fun e =>
            e.ethereum_tx == decoded_event.transactionHash &&
            e.log_index == decoded_event.logIndex) with
        | some e => rw [hfind] at he; cases he
        | none =>
          rw [hfind] at he
          cases htop : decoded_event.topics with
          | nil => rw [htop] at he; simp at he
          | cons t0 rest => rw [htop] at he; cases he
    · intro out hout
      refine ⟨hboth.1, hboth.2, ?_⟩
      rw [get_or_create_erc20_or_721_event, if_neg hcond] at hout
      cases hfind : events.find? (fun e =>
          e.ethereum_tx == decoded_event.transactionHash &&
          e.log_index == decoded_event.logIndex) with
      | some e =>
        rw [hfind] at hout
        cases hout
        intro hc
        cases hc
      | none =>
        rw [hfind] at hout
        cases htop : decoded_event.topics with
        | nil => rw [htop] at hout; cases hout
        | cons t0 rest =>
          rw [htop] at hout
          cases hout
          intro _
          rfl
